import Mathlib

/-!
Verification development for the k-line-predict-mini repository.

The Lean definitions below are a shallow embedding of the Python sources:

* `data_fetcher.py` — `DataFetcher.fetch_us_stock`, `fetch_hk_stock`,
  `fetch_cn_stock`, `fetch_crypto`.  Provider collaborators (`yfinance`,
  `akshare`) are modelled as function parameters returning `Except` values;
  a raised provider exception is an `Except.error` result.  The
  `datetime.strptime`/`strftime`/`timedelta(days=1)` round trip on
  `%Y-%m-%d` strings is embedded through a structured `Date` type with a
  proleptic-Gregorian calendar (`Date.succ`, `formatDate`).
* `database.py` — `StockDatabase.save_stock_data` / `get_stock_data` over an
  in-memory table.  The SQLite `UNIQUE(symbol, market, date)` constraint
  together with `INSERT OR REPLACE` is embedded as delete-then-append;
  `ORDER BY date DESC LIMIT n` followed by the pandas re-sort ascending is
  embedded with `List.insertionSort`.  Stored ISO date strings are
  represented by their day numbers (`Nat`), which is order-isomorphic to the
  bytewise ordering SQLite applies to zero-padded `%Y-%m-%d` text.
* `predictor.py` — `KronosModelPredictor.predict_next_days` validation,
  lookback-window and future-timestamp construction, with the pretrained
  Kronos forecaster (an external black box) modelled as an oracle function
  receiving the assembled `ModelCall`; and the `__init__` max-context
  resolution (constructor argument / environment variable / variant preset,
  with Python `or` falsiness on `0`/`None`) and the small/base clamp.
-/

namespace KLine

/-! ### Calendar dates

Embedding of `datetime.strptime(s, "%Y-%m-%d")`, `+ timedelta(days=1)` and
`strftime("%Y-%m-%d")` as used in `data_fetcher.py`.  A parsed date is a
`Date`; adding one day is the calendar successor `Date.succ`; formatting is
zero-padded ISO.  `Date.toOrdinal` is the proleptic-Gregorian day count
(rata die), defined independently of `Date.succ`, so that
`toOrdinal (succ d) = toOrdinal d + 1` is a genuine theorem about the
month/year rollover including leap years. -/

structure Date where
  year : Nat
  month : Nat
  day : Nat
deriving DecidableEq, Repr

def isLeapYear (y : Nat) : Bool :=
  (y % 4 == 0 && y % 100 != 0) || y % 400 == 0

def daysInMonth (y m : Nat) : Nat :=
  if m = 2 then (if isLeapYear y then 29 else 28)
  else if m = 4 ∨ m = 6 ∨ m = 9 ∨ m = 11 then 30
  else 31

def Date.Valid (d : Date) : Prop :=
  1 ≤ d.year ∧ 1 ≤ d.month ∧ d.month ≤ 12 ∧ 1 ≤ d.day ∧ d.day ≤ daysInMonth d.year d.month

instance (d : Date) : Decidable d.Valid := by
  unfold Date.Valid; infer_instance

/-- Days in the months strictly before month `m` of year `y`. -/
def daysBeforeMonth (y m : Nat) : Nat :=
  (match m with
   | 1 => 0 | 2 => 31 | 3 => 59 | 4 => 90 | 5 => 120 | 6 => 151
   | 7 => 181 | 8 => 212 | 9 => 243 | 10 => 273 | 11 => 304 | _ => 334) +
  (if 3 ≤ m ∧ isLeapYear y then 1 else 0)

/-- Proleptic-Gregorian day number (rata die) of a date. -/
def Date.toOrdinal (d : Date) : Int :=
  365 * ((d.year : Int) - 1)
    + ((d.year - 1) / 4 : Nat) - ((d.year - 1) / 100 : Nat) + ((d.year - 1) / 400 : Nat)
    + (daysBeforeMonth d.year d.month : Int) + (d.day : Int)

/-- Calendar successor: the semantics of `datetime + timedelta(days=1)`. -/
def Date.succ (d : Date) : Date :=
  if d.day < daysInMonth d.year d.month then ⟨d.year, d.month, d.day + 1⟩
  else if d.month < 12 then ⟨d.year, d.month + 1, 1⟩
  else ⟨d.year + 1, 1, 1⟩

lemma isLeapYear_iff (y : Nat) :
    isLeapYear y = true ↔ ((4 ∣ y ∧ ¬ (100 ∣ y)) ∨ 400 ∣ y) := by
  simp [isLeapYear, Nat.dvd_iff_mod_eq_zero]

lemma daysInMonth_pos (y m : Nat) : 1 ≤ daysInMonth y m := by
  unfold daysInMonth
  split
  · split <;> omega
  · split <;> omega

lemma daysBeforeMonth_step (y : Nat) {m : Nat} (h1 : 1 ≤ m) (h2 : m ≤ 11) :
    daysBeforeMonth y (m + 1) = daysBeforeMonth y m + daysInMonth y m := by
  interval_cases m <;> cases hL : isLeapYear y <;>
    simp [daysBeforeMonth, daysInMonth, hL]

lemma leap_step (y : Nat) (hy : 1 ≤ y) :
    ((y / 4 : Nat) : Int) - ((y / 100 : Nat) : Int) + ((y / 400 : Nat) : Int)
      = ((y - 1) / 4 : Nat) - (((y - 1) / 100 : Nat) : Int) + (((y - 1) / 400 : Nat) : Int)
        + (if isLeapYear y then 1 else 0) := by
  obtain ⟨z, rfl⟩ : ∃ z, y = z + 1 := ⟨y - 1, by omega⟩
  have h4 := Nat.succ_div z 4
  have h100 := Nat.succ_div z 100
  have h400 := Nat.succ_div z 400
  simp only [Nat.add_sub_cancel]
  have hL : (if isLeapYear (z + 1) then (1 : Int) else 0)
      = (if ((4 ∣ (z + 1) ∧ ¬ (100 ∣ (z + 1))) ∨ 400 ∣ (z + 1)) then (1 : Int) else 0) := by
    by_cases h : isLeapYear (z + 1) = true
    · rw [if_pos h, if_pos ((isLeapYear_iff _).mp h)]
    · rw [if_neg h, if_neg (fun hc => h ((isLeapYear_iff _).mpr hc))]
  rw [hL]
  split_ifs at h4 h100 h400 ⊢ <;> omega

theorem Date.succ_valid {d : Date} (hv : d.Valid) : d.succ.Valid := by
  obtain ⟨hy, hm1, hm2, hd1, hd2⟩ := hv
  unfold Date.succ
  split_ifs with h1 h2
  · exact ⟨hy, hm1, hm2, by show 1 ≤ d.day + 1; omega,
      by show d.day + 1 ≤ daysInMonth d.year d.month; omega⟩
  · exact ⟨hy, by show 1 ≤ d.month + 1; omega, by show d.month + 1 ≤ 12; omega,
      le_refl 1, daysInMonth_pos _ _⟩
  · exact ⟨by show 1 ≤ d.year + 1; omega, le_refl 1, by norm_num,
      le_refl 1, daysInMonth_pos _ _⟩

theorem Date.toOrdinal_succ {d : Date} (hv : d.Valid) :
    d.succ.toOrdinal = d.toOrdinal + 1 := by
  obtain ⟨hy, hm1, hm2, hd1, hd2⟩ := hv
  unfold Date.succ
  split_ifs with h1 h2
  · simp only [Date.toOrdinal]
    omega
  · have hstep := daysBeforeMonth_step d.year hm1 (by omega)
    simp only [Date.toOrdinal]
    omega
  · have hm : d.month = 12 := by omega
    have hdim : daysInMonth d.year 12 = 31 := by norm_num [daysInMonth]
    rw [hm, hdim] at h1
    have hd31 : d.day = 31 := by rw [hm, hdim] at hd2; omega
    have hstepL := leap_step d.year hy
    have hbm1 : daysBeforeMonth (d.year + 1) 1 = 0 := by simp [daysBeforeMonth]
    have hbm12 : daysBeforeMonth d.year 12 = 334 + (if isLeapYear d.year then 1 else 0) := by
      simp [daysBeforeMonth]
    simp only [Date.toOrdinal, hm, hd31, hbm1, hbm12, Nat.add_sub_cancel]
    push_cast
    split_ifs at hstepL ⊢ <;> push_cast at hstepL ⊢ <;> omega

/-- Zero left-padding of a decimal numeral to the given width, as produced by
CPython `strftime` for `%Y` (width 4) and `%m`, `%d` (width 2). -/
def padNum (width n : Nat) : String :=
  let s := toString n
  if s.length < width then String.mk (List.replicate (width - s.length) '0') ++ s else s

/-- Embedding of `strftime("%Y-%m-%d")`. -/
def formatDate (d : Date) : String :=
  padNum 4 d.year ++ "-" ++ padNum 2 d.month ++ "-" ++ padNum 2 d.day

/-! ### data_fetcher.py

`DataFetcher.fetch_us_stock` / `fetch_hk_stock` / `fetch_crypto` /
`fetch_cn_stock`.  The provider collaborators (`yf.Ticker(...).history` and
`ak.stock_zh_a_hist`) are function parameters returning `Except String rows`;
`Except.error` is a raised provider exception, which the `try/except` block
of each fetcher catches and converts to `none`.  The caller-supplied
inclusive `end_date` (a `%Y-%m-%d` string in the source) is embedded in its
parsed form as a `Date`; `strptime` followed by `+ timedelta(days=1)` and
`strftime` becomes `formatDate end_date.succ`. -/

/-- Raw row of a `yfinance` history frame (capitalized columns). -/
structure YFRow where
  Open : Rat
  High : Rat
  Low : Rat
  Close : Rat
  Volume : Rat
deriving DecidableEq, Repr

/-- Canonical bar after column standardization (lower-case columns). -/
structure Bar where
  open_ : Rat
  high : Rat
  low : Rat
  close : Rat
  volume : Rat
  amount : Rat
deriving DecidableEq, Repr

/-- Column standardization done by the yfinance-based fetchers:
select OHLCV, derive `amount = Volume * Close`, rename to lower-case. -/
def standardizeYF (data : List YFRow) : List Bar :=
  data.map fun r =>
    { open_ := r.Open, high := r.High, low := r.Low, close := r.Close,
      volume := r.Volume, amount := r.Volume * r.Close }

/-- The `yf.Ticker(symbol).history(start=..., end=...)` collaborator:
arguments are (symbol, start, end). -/
def YFProvider : Type := String → String → String → Except String (List YFRow)

/-- Raw row of an `ak.stock_zh_a_hist` frame after the rename to canonical
lower-case columns (`日期`/`开盘`/… are provider-internal names). -/
structure CNRow where
  open_ : Rat
  high : Rat
  low : Rat
  close : Rat
  volume : Rat
deriving DecidableEq, Repr

/-- The `ak.stock_zh_a_hist(symbol, start_date, end_date, adjust)`
collaborator. -/
def CNProvider : Type := String → String → String → String → Except String (List CNRow)

/-- Column work done by `fetch_cn_stock` after the rename:
`amount = volume * close`, then select the canonical columns. -/
def standardizeCN (data : List CNRow) : List Bar :=
  data.map fun r =>
    { open_ := r.open_, high := r.high, low := r.low, close := r.close,
      volume := r.volume, amount := r.volume * r.close }

/-- Embedding of `DataFetcher.fetch_us_stock` (data_fetcher.py lines 13-31). -/
def fetch_us_stock (history : YFProvider) (symbol start_date : String)
    (end_date : Date) : Option (List Bar) :=
  let end_date_inclusive := formatDate end_date.succ
  match history symbol start_date end_date_inclusive with
  | Except.error _ => none
  | Except.ok data => if data.isEmpty then none else some (standardizeYF data)

/-- Embedding of `DataFetcher.fetch_hk_stock` (data_fetcher.py lines 33-52). -/
def fetch_hk_stock (history : YFProvider) (symbol start_date : String)
    (end_date : Date) : Option (List Bar) :=
  let symbol2 := if symbol.endsWith ".HK" then symbol else symbol ++ ".HK"
  let end_date_inclusive := formatDate end_date.succ
  match history symbol2 start_date end_date_inclusive with
  | Except.error _ => none
  | Except.ok data => if data.isEmpty then none else some (standardizeYF data)

/-- Embedding of `DataFetcher.fetch_cn_stock` (data_fetcher.py lines 54-79); akshare takes
the inclusive date strings as given, with the exchange suffix stripped from
the symbol. -/
def fetch_cn_stock (hist : CNProvider) (symbol start_date end_date : String) :
    Option (List Bar) :=
  let clean_symbol :=
    match symbol.splitOn "." with
    | [] => symbol
    | h :: _ => h
  match hist clean_symbol start_date end_date "qfq" with
  | Except.error _ => none
  | Except.ok data => if data.isEmpty then none else some (standardizeCN data)

/-- Embedding of `DataFetcher.fetch_crypto` (data_fetcher.py lines 81-100). -/
def fetch_crypto (history : YFProvider) (symbol start_date : String)
    (end_date : Date) : Option (List Bar) :=
  let symbol2 :=
    if symbol.endsWith "-USD" ∨ symbol.endsWith "-USDT" then symbol
    else symbol ++ "-USD"
  let end_date_inclusive := formatDate end_date.succ
  match history symbol2 start_date end_date_inclusive with
  | Except.error _ => none
  | Except.ok data => if data.isEmpty then none else some (standardizeYF data)

/-- Fixed sample row used by the probe provider. -/
def probeRowYF : YFRow := ⟨10, 12, 9, 11, 1000⟩

/-- Probe provider: succeeds with one row exactly when the end-date argument
it receives equals `expected`, and raises otherwise.  Used to observe which
end boundary a fetcher passes to `yfinance`. -/
def probeYF (expected : String) : YFProvider := fun _ _ endArg =>
  if endArg = expected then Except.ok [probeRowYF]
  else Except.error "unexpected end boundary"

/-- Provider that always raises. -/
def errYF : YFProvider := fun _ _ _ => Except.error "network down"

/-- CN provider that always raises. -/
def errCN : CNProvider := fun _ _ _ _ => Except.error "network down"

/-- C2: for every symbol, market and date range, when the underlying provider
call raises an exception, each fetch operation (`fetch_us_stock`,
`fetch_hk_stock`, `fetch_cn_stock`, `fetch_crypto`) returns the "no data"
result `none` and never propagates the provider exception to its caller. -/
theorem fetch_returns_none_on_provider_error
    (historyYF : YFProvider) (histCN : CNProvider)
    (symbol start_date : String) (end_date : Date) (cnStart cnEnd : String)
    (hYF : ∀ a b c, ∃ e, historyYF a b c = Except.error e)
    (hCN : ∀ a b c d, ∃ e, histCN a b c d = Except.error e) :
    fetch_us_stock historyYF symbol start_date end_date = none
    ∧ fetch_hk_stock historyYF symbol start_date end_date = none
    ∧ fetch_cn_stock histCN symbol cnStart cnEnd = none
    ∧ fetch_crypto historyYF symbol start_date end_date = none := by
  refine ⟨?_, ?_, ?_, ?_⟩
  · obtain ⟨e, he⟩ := hYF symbol start_date (formatDate end_date.succ)
    simp [fetch_us_stock, he]
  · obtain ⟨e, he⟩ := hYF (if symbol.endsWith ".HK" then symbol else symbol ++ ".HK")
      start_date (formatDate end_date.succ)
    simp [fetch_hk_stock, he]
  · obtain ⟨e, he⟩ := hCN
      (match symbol.splitOn "." with | [] => symbol | h :: _ => h) cnStart cnEnd "qfq"
    simp [fetch_cn_stock, he]
  · obtain ⟨e, he⟩ := hYF
      (if symbol.endsWith "-USD" ∨ symbol.endsWith "-USDT" then symbol else symbol ++ "-USD")
      start_date (formatDate end_date.succ)
    simp [fetch_crypto, he]

/-- Witness for C2: concrete always-raising providers, concrete arguments. -/
theorem fetch_returns_none_on_provider_error_witness :
    fetch_us_stock errYF "AAPL" "2023-01-01" ⟨2023, 12, 31⟩ = none
    ∧ fetch_hk_stock errYF "0700" "2023-01-01" ⟨2023, 12, 31⟩ = none
    ∧ fetch_cn_stock errCN "000001.SZ" "2023-01-01" "2023-12-31" = none
    ∧ fetch_crypto errYF "BTC" "2023-01-01" ⟨2023, 12, 31⟩ = none := by
  have hY : ∀ a b c, ∃ e, errYF a b c = Except.error e := fun _ _ _ => ⟨_, rfl⟩
  have hC : ∀ a b c d, ∃ e, errCN a b c d = Except.error e := fun _ _ _ _ => ⟨_, rfl⟩
  exact ⟨(fetch_returns_none_on_provider_error errYF errCN "AAPL" "2023-01-01"
            ⟨2023, 12, 31⟩ "2023-01-01" "2023-12-31" hY hC).1,
         (fetch_returns_none_on_provider_error errYF errCN "0700" "2023-01-01"
            ⟨2023, 12, 31⟩ "2023-01-01" "2023-12-31" hY hC).2.1,
         (fetch_returns_none_on_provider_error errYF errCN "000001.SZ" "2023-01-01"
            ⟨2023, 12, 31⟩ "2023-01-01" "2023-12-31" hY hC).2.2.1,
         (fetch_returns_none_on_provider_error errYF errCN "BTC" "2023-01-01"
            ⟨2023, 12, 31⟩ "2023-01-01" "2023-12-31" hY hC).2.2.2⟩

/-- C5: for every US, HK and CRYPTO fetch with an inclusive caller-supplied
end date, the end boundary passed to the provider is the supplied end date
plus exactly one calendar day: the fetch succeeds against a probe provider
that accepts exactly `formatDate end_date.succ` and fails against a probe
expecting any other string, and the successor is a valid calendar date whose
proleptic-Gregorian ordinal is exactly one more than the supplied date's. -/
theorem fetch_end_boundary_is_next_calendar_day
    (d : Date) (hv : d.Valid) (symbol start_date s2 : String)
    (hs : s2 ≠ formatDate d.succ) :
    d.succ.Valid
    ∧ d.succ.toOrdinal = d.toOrdinal + 1
    ∧ fetch_us_stock (probeYF (formatDate d.succ)) symbol start_date d
        = some (standardizeYF [probeRowYF])
    ∧ fetch_hk_stock (probeYF (formatDate d.succ)) symbol start_date d
        = some (standardizeYF [probeRowYF])
    ∧ fetch_crypto (probeYF (formatDate d.succ)) symbol start_date d
        = some (standardizeYF [probeRowYF])
    ∧ fetch_us_stock (probeYF s2) symbol start_date d = none
    ∧ fetch_hk_stock (probeYF s2) symbol start_date d = none
    ∧ fetch_crypto (probeYF s2) symbol start_date d = none := by
  have hne : formatDate d.succ ≠ s2 := Ne.symm hs
  refine ⟨Date.succ_valid hv, Date.toOrdinal_succ hv, ?_, ?_, ?_, ?_, ?_, ?_⟩ <;>
    simp [fetch_us_stock, fetch_hk_stock, fetch_crypto, probeYF, hne]

/-- Witness for C5, at the leap-year boundary 2024-02-28 → 2024-02-29. -/
theorem fetch_end_boundary_is_next_calendar_day_witness :
    (Date.succ ⟨2024, 2, 28⟩).Valid
    ∧ (Date.succ ⟨2024, 2, 28⟩).toOrdinal = (Date.toOrdinal ⟨2024, 2, 28⟩) + 1
    ∧ fetch_us_stock (probeYF (formatDate (Date.succ ⟨2024, 2, 28⟩)))
        "AAPL" "2024-01-01" ⟨2024, 2, 28⟩ = some (standardizeYF [probeRowYF])
    ∧ fetch_hk_stock (probeYF (formatDate (Date.succ ⟨2024, 2, 28⟩)))
        "AAPL" "2024-01-01" ⟨2024, 2, 28⟩ = some (standardizeYF [probeRowYF])
    ∧ fetch_crypto (probeYF (formatDate (Date.succ ⟨2024, 2, 28⟩)))
        "AAPL" "2024-01-01" ⟨2024, 2, 28⟩ = some (standardizeYF [probeRowYF])
    ∧ fetch_us_stock (probeYF "2024-02-28") "AAPL" "2024-01-01" ⟨2024, 2, 28⟩ = none
    ∧ fetch_hk_stock (probeYF "2024-02-28") "AAPL" "2024-01-01" ⟨2024, 2, 28⟩ = none
    ∧ fetch_crypto (probeYF "2024-02-28") "AAPL" "2024-01-01" ⟨2024, 2, 28⟩ = none :=
  fetch_end_boundary_is_next_calendar_day ⟨2024, 2, 28⟩ (by decide)
    "AAPL" "2024-01-01" "2024-02-28" (by decide)

/-! ### database.py

`StockDatabase` over an in-memory table.  A table is the list of rows of
`stock_data` in rowid order.  The `UNIQUE(symbol, market, date)` constraint
with `INSERT OR REPLACE` deletes any conflicting row and appends the new
one.  Stored `%Y-%m-%d` TEXT dates are represented by day numbers (`Nat`):
SQLite orders the zero-padded ISO text bytewise and pandas re-sorts the
parsed datetimes, and both orders are isomorphic to the day-number order. -/

structure DBRow where
  symbol : String
  market : String
  date : Nat
  open_ : Rat
  high : Rat
  low : Rat
  close : Rat
  volume : Int
deriving DecidableEq, Repr

abbrev Table := List DBRow

def rowKey (r : DBRow) : String × String × Nat := (r.symbol, r.market, r.date)

/-- Numeric payload of one bar as written by `save_stock_data`
(`float(row['Open'])`, …, `int(row['Volume'])`). -/
structure BarVals where
  open_ : Rat
  high : Rat
  low : Rat
  close : Rat
  volume : Int
deriving DecidableEq, Repr

def mkRow (symbol market : String) (x : Nat × BarVals) : DBRow :=
  ⟨symbol, market, x.1, x.2.open_, x.2.high, x.2.low, x.2.close, x.2.volume⟩

/-- SQLite `INSERT OR REPLACE INTO stock_data ...` under the unique key triple:
delete the conflicting row (if any), insert the new row. -/
def insertOrReplace (t : Table) (r : DBRow) : Table :=
  (t.filter fun x => decide (rowKey x ≠ rowKey r)) ++ [r]

/-- Embedding of `StockDatabase.save_stock_data` (database.py lines 35-57): one
insert-or-replace per `(date, row)` of the frame, in order. -/
def save_stock_data (t : Table) (symbol market : String)
    (data : List (Nat × BarVals)) : Table :=
  data.foldl (fun acc x => insertOrReplace acc (mkRow symbol market x)) t

def dateDesc (a b : DBRow) : Prop := b.date ≤ a.date

def dateAsc (a b : DBRow) : Prop := a.date ≤ b.date

instance : DecidableRel dateDesc := fun a b => inferInstanceAs (Decidable (b.date ≤ a.date))

instance : DecidableRel dateAsc := fun a b => inferInstanceAs (Decidable (a.date ≤ b.date))

instance : IsTotal DBRow dateDesc := ⟨fun a b => Nat.le_total b.date a.date⟩

instance : IsTotal DBRow dateAsc := ⟨fun a b => Nat.le_total a.date b.date⟩

instance : IsTrans DBRow dateDesc := ⟨fun _ _ _ hab hbc => Nat.le_trans hbc hab⟩

instance : IsTrans DBRow dateAsc := ⟨fun _ _ _ hab hbc => Nat.le_trans hab hbc⟩

/-- Embedding of `StockDatabase.get_stock_data` (database.py lines 59-90):
`SELECT ... WHERE symbol = ? AND market = ? ORDER BY date DESC LIMIT ?`,
`None` if empty, else the pandas re-sort by ascending date. -/
def get_stock_data (t : Table) (symbol market : String) (days : Nat) :
    Option Table :=
  let filtered := t.filter fun r => decide (r.symbol = symbol ∧ r.market = market)
  let selected := (List.insertionSort dateDesc filtered).take days
  if selected.isEmpty then none
  else some (List.insertionSort dateAsc selected)

/-- The rows returned by `get_stock_data`, with "no data" read as no rows. -/
def readRows (t : Table) (symbol market : String) (days : Nat) : Table :=
  (get_stock_data t symbol market days).getD []

/-- Table invariant guaranteed by `UNIQUE(symbol, market, date)`: no two rows
share the key triple. -/
def WellFormed (t : Table) : Prop :=
  t.Pairwise fun a b => rowKey a ≠ rowKey b

instance (t : Table) : Decidable (WellFormed t) := by
  unfold WellFormed; infer_instance

def lookupRow (t : Table) (k : String × String × Nat) : Option DBRow :=
  t.find? fun r => decide (rowKey r = k)

/-- Payload of the last write for date `d` in a save batch. -/
def lastWrite (data : List (Nat × BarVals)) (d : Nat) : Option BarVals :=
  (data.reverse.find? fun x => decide (x.1 = d)).map Prod.snd

lemma insertOrReplace_wf {t : Table} (r : DBRow) (h : WellFormed t) :
    WellFormed (insertOrReplace t r) := by
  unfold WellFormed insertOrReplace
  rw [List.pairwise_append]
  refine ⟨List.Pairwise.sublist (List.filter_sublist t) h, List.pairwise_singleton _ _, ?_⟩
  intro a ha b hb
  rw [List.mem_filter] at ha
  rw [List.mem_singleton] at hb
  subst hb
  simpa using ha.2

lemma save_wf {t : Table} {symbol market : String}
    (data : List (Nat × BarVals)) (h : WellFormed t) :
    WellFormed (save_stock_data t symbol market data) := by
  induction data generalizing t with
  | nil => exact h
  | cons x xs ih =>
      exact ih (insertOrReplace_wf (mkRow symbol market x) h)

lemma lookup_insertOrReplace_self (t : Table) (r : DBRow) :
    lookupRow (insertOrReplace t r) (rowKey r) = some r := by
  unfold lookupRow insertOrReplace
  rw [List.find?_append]
  have hnone : (t.filter fun x => decide (rowKey x ≠ rowKey r)).find?
      (fun x => decide (rowKey x = rowKey r)) = none := by
    rw [List.find?_eq_none]
    intro x hx
    rw [List.mem_filter] at hx
    simpa using hx.2
  rw [hnone]
  simp

lemma lookup_insertOrReplace_other (t : Table) (r : DBRow)
    (k : String × String × Nat) (hk : k ≠ rowKey r) :
    lookupRow (insertOrReplace t r) k = lookupRow t k := by
  have hpr : List.find? (fun x => decide (rowKey x = k)) [r] = none := by
    simp only [List.find?_singleton]
    rw [if_neg ?hcond]
    case hcond => simp; exact fun h => hk h.symm
  unfold lookupRow insertOrReplace
  rw [List.find?_append, hpr, Option.or_none]
  induction t with
  | nil => rfl
  | cons x xs ih =>
      rw [List.filter_cons]
      by_cases hx : rowKey x = rowKey r
      · rw [if_neg (by simp [hx])]
        rw [List.find?_cons_of_neg _ (by simp; exact fun h => hk (h.symm.trans hx))]
        exact ih
      · rw [if_pos (by simp [hx])]
        by_cases hpx : rowKey x = k
        · rw [List.find?_cons_of_pos _ (by simp [hpx]),
            List.find?_cons_of_pos _ (by simp [hpx])]
        · rw [List.find?_cons_of_neg _ (by simp [hpx]),
            List.find?_cons_of_neg _ (by simp [hpx])]
          exact ih

lemma save_append_step (t : Table) (symbol market : String)
    (data : List (Nat × BarVals)) (x : Nat × BarVals) :
    save_stock_data t symbol market (data ++ [x])
      = insertOrReplace (save_stock_data t symbol market data)
          (mkRow symbol market x) := by
  unfold save_stock_data
  rw [List.foldl_append]
  rfl

lemma save_lookup_lastWrite (t : Table) (symbol market : String)
    (data : List (Nat × BarVals)) (d : Nat) (b : BarVals)
    (h : lastWrite data d = some b) :
    lookupRow (save_stock_data t symbol market data) (symbol, market, d)
      = some (mkRow symbol market (d, b)) := by
  induction data using List.reverseRecOn generalizing t with
  | nil => simp [lastWrite] at h
  | append_singleton ds x ih =>
      rw [save_append_step]
      by_cases hx : x.1 = d
      · have hb : x.2 = b := by
          unfold lastWrite at h
          rw [List.reverse_append] at h
          simp only [List.reverse_singleton, List.singleton_append, List.find?] at h
          rw [show (decide (x.1 = d)) = true by simp [hx]] at h
          simpa using h
        have hkey : rowKey (mkRow symbol market x) = (symbol, market, d) := by
          simp [rowKey, mkRow, hx]
        rw [← hkey, lookup_insertOrReplace_self]
        subst hb hx
        rfl
      · have hds : lastWrite ds d = some b := by
          unfold lastWrite at h ⊢
          rw [List.reverse_append] at h
          simp only [List.reverse_singleton, List.singleton_append, List.find?] at h
          rw [show (decide (x.1 = d)) = false by simp [hx]] at h
          exact h
        rw [lookup_insertOrReplace_other]
        · exact ih t hds
        · simp [rowKey, mkRow]
          exact fun hh => hx hh.symm

/-- One `save_stock_data` call: its symbol, market and frame. -/
structure SaveOp where
  symbol : String
  market : String
  data : List (Nat × BarVals)

/-- A sequence of `save_stock_data` calls applied in order. -/
def applySaves (t : Table) (ops : List SaveOp) : Table :=
  ops.foldl (fun acc op => save_stock_data acc op.symbol op.market op.data) t

lemma applySaves_wf {t : Table} (ops : List SaveOp) (h : WellFormed t) :
    WellFormed (applySaves t ops) := by
  induction ops generalizing t with
  | nil => exact h
  | cons op ops ih => exact ih (save_wf op.data h)

lemma wf_count {t : Table} (h : WellFormed t) (k : String × String × Nat) :
    t.countP (fun r => decide (rowKey r = k)) ≤ 1 := by
  induction t with
  | nil => simp
  | cons x xs ih =>
      unfold WellFormed at h
      rw [List.pairwise_cons] at h
      rw [List.countP_cons]
      by_cases hx : rowKey x = k
      · have hzero : xs.countP (fun r => decide (rowKey r = k)) = 0 := by
          rw [List.countP_eq_zero]
          intro a ha
          simp only [decide_eq_true_eq]
          intro hak
          exact h.1 a ha (hx.trans hak.symm)
        simp [hzero, hx]
      · simp [hx]
        exact ih h.2

/-- C4: upsert is idempotent.  After any sequence of save operations on a
well-formed table the table holds at most one row per (symbol, market, date)
key triple, a further save on an overlapping range keeps that invariant, and
the row at a written date carries the numeric fields of the latest write for
that date rather than a duplicated row. -/
theorem upsert_idempotent_replaces
    (t : Table) (hwf : WellFormed t) (ops : List SaveOp)
    (symbol market : String) (data : List (Nat × BarVals)) (d : Nat)
    (b : BarVals) (hlast : lastWrite data d = some b)
    (k : String × String × Nat) :
    WellFormed (applySaves t ops)
    ∧ (applySaves t ops).countP (fun r => decide (rowKey r = k)) ≤ 1
    ∧ WellFormed (save_stock_data (applySaves t ops) symbol market data)
    ∧ (save_stock_data (applySaves t ops) symbol market data).countP
        (fun r => decide (rowKey r = k)) ≤ 1
    ∧ lookupRow (save_stock_data (applySaves t ops) symbol market data)
        (symbol, market, d) = some (mkRow symbol market (d, b)) := by
  have h1 := applySaves_wf ops hwf
  have h3 := @save_wf (applySaves t ops) symbol market data h1
  exact ⟨h1, wf_count h1 k, h3, wf_count h3 k,
    save_lookup_lastWrite _ _ _ _ _ _ hlast⟩

/-- Witness for C4: re-fetching an overlapping range replaces date 2 with the
latest numeric fields and leaves a single row per key. -/
theorem upsert_idempotent_replaces_witness :
    WellFormed (applySaves [] [⟨"AAPL", "US", [(1, ⟨10, 11, 9, 10, 100⟩), (2, ⟨11, 12, 10, 11, 200⟩)]⟩])
    ∧ (applySaves [] [⟨"AAPL", "US", [(1, ⟨10, 11, 9, 10, 100⟩), (2, ⟨11, 12, 10, 11, 200⟩)]⟩]).countP
        (fun r => decide (rowKey r = ("AAPL", "US", 2))) ≤ 1
    ∧ WellFormed (save_stock_data
        (applySaves [] [⟨"AAPL", "US", [(1, ⟨10, 11, 9, 10, 100⟩), (2, ⟨11, 12, 10, 11, 200⟩)]⟩])
        "AAPL" "US" [(2, ⟨12, 13, 11, 12, 300⟩), (3, ⟨13, 14, 12, 13, 400⟩)])
    ∧ (save_stock_data
        (applySaves [] [⟨"AAPL", "US", [(1, ⟨10, 11, 9, 10, 100⟩), (2, ⟨11, 12, 10, 11, 200⟩)]⟩])
        "AAPL" "US" [(2, ⟨12, 13, 11, 12, 300⟩), (3, ⟨13, 14, 12, 13, 400⟩)]).countP
        (fun r => decide (rowKey r = ("AAPL", "US", 2))) ≤ 1
    ∧ lookupRow (save_stock_data
        (applySaves [] [⟨"AAPL", "US", [(1, ⟨10, 11, 9, 10, 100⟩), (2, ⟨11, 12, 10, 11, 200⟩)]⟩])
        "AAPL" "US" [(2, ⟨12, 13, 11, 12, 300⟩), (3, ⟨13, 14, 12, 13, 400⟩)])
        ("AAPL", "US", 2) = some (mkRow "AAPL" "US" (2, ⟨12, 13, 11, 12, 300⟩)) :=
  upsert_idempotent_replaces [] (by constructor)
    [⟨"AAPL", "US", [(1, ⟨10, 11, 9, 10, 100⟩), (2, ⟨11, 12, 10, 11, 200⟩)]⟩]
    "AAPL" "US" [(2, ⟨12, 13, 11, 12, 300⟩), (3, ⟨13, 14, 12, 13, 400⟩)]
    2 ⟨12, 13, 11, 12, 300⟩ (by rfl) ("AAPL", "US", 2)

/-- C9: when zero rows match the key, the cache read returns the sentinel
"no data" value `none` rather than raising. -/
theorem read_none_on_no_match (t : Table) (symbol market : String) (days : Nat)
    (h : t.filter (fun r => decide (r.symbol = symbol ∧ r.market = market)) = []) :
    get_stock_data t symbol market days = none := by
  simp only [get_stock_data]
  rw [h]
  simp

/-- Witness for C9: a table holding only another symbol's rows. -/
theorem read_none_on_no_match_witness :
    get_stock_data [⟨"MSFT", "US", 1, 1, 1, 1, 1, 1⟩] "AAPL" "US" 365 = none :=
  read_none_on_no_match [⟨"MSFT", "US", 1, 1, 1, 1, 1, 1⟩] "AAPL" "US" 365 (by decide)

/-- The rows of the table matching a series key, in table order. -/
def matchingRows (t : Table) (symbol market : String) : Table :=
  t.filter fun r => decide (r.symbol = symbol ∧ r.market = market)

lemma matchingRows_dates_distinct {t : Table} (hwf : WellFormed t)
    (symbol market : String) :
    (matchingRows t symbol market).Pairwise fun a b => a.date ≠ b.date := by
  have hpw : (matchingRows t symbol market).Pairwise
      (fun a b => rowKey a ≠ rowKey b) :=
    List.Pairwise.sublist (List.filter_sublist t) hwf
  refine List.Pairwise.imp_of_mem ?_ hpw
  intro a b ha hb hne hdd
  apply hne
  have ha2 := (List.mem_filter.mp ha).2
  have hb2 := (List.mem_filter.mp hb).2
  simp only [decide_eq_true_eq] at ha2 hb2
  unfold rowKey
  rw [ha2.1, ha2.2, hb2.1, hb2.2, hdd]

lemma readRows_eq_sorted (t : Table) (symbol market : String) (days : Nat) :
    readRows t symbol market days
      = List.insertionSort dateAsc
          ((List.insertionSort dateDesc (matchingRows t symbol market)).take days) := by
  unfold readRows
  simp only [get_stock_data, matchingRows]
  split_ifs with hemp
  · rw [List.isEmpty_iff] at hemp
    rw [hemp]
    rfl
  · rfl

/-- C3: for every well-formed cache state and limit, the cache read returns
at most `days` rows, strictly ascending by date, all drawn from the rows
matching the key; when no more than `days` rows match it returns exactly the
matching rows (as a permutation, re-sorted), and when more than `days` rows
match it returns exactly `days` rows and every matching row left out is
strictly older than every returned row — the chronologically newest rows. -/
theorem read_limit_newest_ascending (t : Table) (hwf : WellFormed t)
    (symbol market : String) (days : Nat) :
    (readRows t symbol market days).length ≤ days
    ∧ (readRows t symbol market days).Pairwise (fun a b => a.date < b.date)
    ∧ (∀ q ∈ readRows t symbol market days, q ∈ matchingRows t symbol market)
    ∧ ((matchingRows t symbol market).length ≤ days →
        (readRows t symbol market days).Perm (matchingRows t symbol market))
    ∧ (days < (matchingRows t symbol market).length →
        (readRows t symbol market days).length = days
        ∧ ∀ r ∈ matchingRows t symbol market, r ∉ readRows t symbol market days →
            ∀ q ∈ readRows t symbol market days, r.date < q.date) := by
  have hdates := matchingRows_dates_distinct hwf symbol market
  have hperm1 : List.Perm (List.insertionSort dateDesc (matchingRows t symbol market))
      (matchingRows t symbol market) := List.perm_insertionSort _ _
  have hsorted : List.Sorted dateDesc
      (List.insertionSort dateDesc (matchingRows t symbol market)) :=
    List.sorted_insertionSort _ _
  have hdatesDesc : (List.insertionSort dateDesc (matchingRows t symbol market)).Pairwise
      (fun a b => a.date ≠ b.date) :=
    hdates.perm hperm1.symm fun h => h.symm
  have hstrict : (List.insertionSort dateDesc (matchingRows t symbol market)).Pairwise
      (fun a b => b.date < a.date) := by
    refine (List.Pairwise.and hsorted hdatesDesc).imp ?_
    intro a b hab
    have h1 : b.date ≤ a.date := hab.1
    have h2 : a.date ≠ b.date := hab.2
    omega
  have hselne : ((List.insertionSort dateDesc (matchingRows t symbol market)).take days).Pairwise
      (fun a b => a.date ≠ b.date) :=
    List.Pairwise.sublist (List.take_sublist _ _) hdatesDesc
  have hselsorted : ((List.insertionSort dateDesc (matchingRows t symbol market)).take days).Pairwise
      (fun a b => b.date ≤ a.date) :=
    List.Pairwise.sublist (List.take_sublist _ _) hsorted
  have hperm2 : List.Perm (List.insertionSort dateAsc
      ((List.insertionSort dateDesc (matchingRows t symbol market)).take days))
      ((List.insertionSort dateDesc (matchingRows t symbol market)).take days) :=
    List.perm_insertionSort _ _
  have hressorted : List.Sorted dateAsc
      (List.insertionSort dateAsc
        ((List.insertionSort dateDesc (matchingRows t symbol market)).take days)) :=
    List.sorted_insertionSort _ _
  have hresne : (List.insertionSort dateAsc
      ((List.insertionSort dateDesc (matchingRows t symbol market)).take days)).Pairwise
      (fun a b => a.date ≠ b.date) :=
    hselne.perm hperm2.symm fun h => h.symm
  rw [readRows_eq_sorted]
  refine ⟨?_, ?_, ?_, ?_, ?_⟩
  · rw [hperm2.length_eq, List.length_take]
    omega
  · refine (List.Pairwise.and hressorted hresne).imp ?_
    intro a b hab
    have h1 : a.date ≤ b.date := hab.1
    have h2 : a.date ≠ b.date := hab.2
    omega
  · intro q hq
    have hq2 : q ∈ (List.insertionSort dateDesc (matchingRows t symbol market)).take days :=
      hperm2.mem_iff.mp hq
    have hq3 : q ∈ List.insertionSort dateDesc (matchingRows t symbol market) :=
      (List.take_sublist _ _).mem hq2
    exact hperm1.mem_iff.mp hq3
  · intro hle
    have hlen : (List.insertionSort dateDesc (matchingRows t symbol market)).length
        = (matchingRows t symbol market).length := hperm1.length_eq
    have htake : (List.insertionSort dateDesc (matchingRows t symbol market)).take days
        = List.insertionSort dateDesc (matchingRows t symbol market) :=
      List.take_of_length_le (by omega)
    exact hperm2.trans (htake.symm ▸ hperm1)
  · intro hlt
    have hlen : (List.insertionSort dateDesc (matchingRows t symbol market)).length
        = (matchingRows t symbol market).length := hperm1.length_eq
    constructor
    · rw [hperm2.length_eq, List.length_take]
      omega
    · intro r hr hnr q hq
      have hq2 : q ∈ (List.insertionSort dateDesc (matchingRows t symbol market)).take days :=
        hperm2.mem_iff.mp hq
      have hnr2 : r ∉ (List.insertionSort dateDesc (matchingRows t symbol market)).take days :=
        fun hc => hnr (hperm2.mem_iff.mpr hc)
      have hr2 : r ∈ List.insertionSort dateDesc (matchingRows t symbol market) :=
        hperm1.mem_iff.mpr hr
      have hsplit := List.take_append_drop days
        (List.insertionSort dateDesc (matchingRows t symbol market))
      have hrdrop : r ∈ (List.insertionSort dateDesc (matchingRows t symbol market)).drop days := by
        rcases List.mem_append.mp (by rw [hsplit]; exact hr2) with h | h
        · exact absurd h hnr2
        · exact h
      have hpw := hstrict
      rw [← hsplit] at hpw
      exact (List.pairwise_append.mp hpw).2.2 q hq2 r hrdrop

/-- Witness for C3: four rows, three matching the key with dates 3, 1, 2;
the read with limit 2 keeps the two newest (2, 3) re-sorted ascending. -/
theorem read_limit_newest_ascending_witness :
    WellFormed [⟨"AAPL", "US", 3, 1, 1, 1, 1, 1⟩, ⟨"AAPL", "US", 1, 2, 2, 2, 2, 2⟩,
        ⟨"MSFT", "US", 2, 3, 3, 3, 3, 3⟩, ⟨"AAPL", "US", 2, 4, 4, 4, 4, 4⟩]
    ∧ (readRows [⟨"AAPL", "US", 3, 1, 1, 1, 1, 1⟩, ⟨"AAPL", "US", 1, 2, 2, 2, 2, 2⟩,
        ⟨"MSFT", "US", 2, 3, 3, 3, 3, 3⟩, ⟨"AAPL", "US", 2, 4, 4, 4, 4, 4⟩]
        "AAPL" "US" 2).length ≤ 2
    ∧ (readRows [⟨"AAPL", "US", 3, 1, 1, 1, 1, 1⟩, ⟨"AAPL", "US", 1, 2, 2, 2, 2, 2⟩,
        ⟨"MSFT", "US", 2, 3, 3, 3, 3, 3⟩, ⟨"AAPL", "US", 2, 4, 4, 4, 4, 4⟩]
        "AAPL" "US" 2).Pairwise (fun a b => a.date < b.date)
    ∧ readRows [⟨"AAPL", "US", 3, 1, 1, 1, 1, 1⟩, ⟨"AAPL", "US", 1, 2, 2, 2, 2, 2⟩,
        ⟨"MSFT", "US", 2, 3, 3, 3, 3, 3⟩, ⟨"AAPL", "US", 2, 4, 4, 4, 4, 4⟩]
        "AAPL" "US" 2
        = [⟨"AAPL", "US", 2, 4, 4, 4, 4, 4⟩, ⟨"AAPL", "US", 3, 1, 1, 1, 1, 1⟩] := by
  have h := read_limit_newest_ascending
    [⟨"AAPL", "US", 3, 1, 1, 1, 1, 1⟩, ⟨"AAPL", "US", 1, 2, 2, 2, 2, 2⟩,
     ⟨"MSFT", "US", 2, 3, 3, 3, 3, 3⟩, ⟨"AAPL", "US", 2, 4, 4, 4, 4, 4⟩]
    (by decide) "AAPL" "US" 2
  exact ⟨by decide, h.1, h.2.1, by decide⟩

/-! ### predictor.py

`KronosModelPredictor.predict_next_days` (lines 160-242).  The input frame
is its column list, its (timezone-naive) daily timestamps as day numbers,
and its row values; the pretrained Kronos predictor is an external black box
modelled as an oracle receiving the assembled call.  The Python `ValueError`s
are the explicit error constructors (all four are `ValueError` in the
source, distinguished by message); `indexError` is the `IndexError` that
`x_timestamp.iloc[-1]` would raise on an empty window. -/

structure DataFrame where
  cols : List String
  rowIndex : List Int
  rowValues : List (List Rat)
deriving DecidableEq, Repr

inductive PredictError where
  | noData
  | invalidDays
  | invalidGranularity
  | missingColumns
  | indexError
deriving DecidableEq, Repr

/-- The arguments handed to `self.predictor.predict(...)` (lines 231-239):
the windowed frame, its timestamps, the future timestamps and `pred_len`. -/
structure ModelCall where
  x_index : List Int
  x_values : List (List Rat)
  y_timestamp : List Int
  pred_len : Nat
deriving DecidableEq, Repr

def requiredCols : List String := ["open", "high", "low", "close", "volume", "amount"]

/-- The `while len(future_ts) < days` loop (lines 213-217): starting from the
last historical timestamp, repeatedly add one day and append. -/
def genFutureTs (cursor : Int) : Nat → List Int
  | 0 => []
  | n + 1 => (cursor + 1) :: genFutureTs (cursor + 1) n

/-- Lookback resolution (lines 196-201): `min(len(df), lookback_days,
max_context)` when `lookback_days` is given, else `min(len(df), max_context)`. -/
def lookbackLen (n : Nat) (lookbackDays : Option Nat) (maxContext : Nat) : Nat :=
  match lookbackDays with
  | some ld => min (min n ld) maxContext
  | none => min n maxContext

/-- Window `x_df = df.tail(lookback)` (line 203): the timestamps of the window. -/
def windowIndex (df : DataFrame) (lookbackDays : Option Nat)
    (maxContext : Nat) : List Int :=
  df.rowIndex.drop
    (df.rowIndex.length - lookbackLen df.rowIndex.length lookbackDays maxContext)

/-- Window `x_df = df.tail(lookback)` (line 203): the values of the window. -/
def windowValues (df : DataFrame) (lookbackDays : Option Nat)
    (maxContext : Nat) : List (List Rat) :=
  df.rowValues.drop
    (df.rowValues.length - lookbackLen df.rowIndex.length lookbackDays maxContext)

/-- Validation and call assembly of `predict_next_days` up to the black-box
forecaster invocation. -/
def predictCall (maxContext : Nat) (df : DataFrame) (days : Int)
    (granularity : String) (lookbackDays : Option Nat) :
    Except PredictError ModelCall :=
  if df.rowIndex.isEmpty then Except.error PredictError.noData
  else if days ≤ 0 then Except.error PredictError.invalidDays
  else if granularity ≠ "day" then Except.error PredictError.invalidGranularity
  else if ¬ (requiredCols.all fun c => df.cols.contains c) then
    Except.error PredictError.missingColumns
  else
    match (windowIndex df lookbackDays maxContext).getLast? with
    | none => Except.error PredictError.indexError
    | some lastTs =>
        Except.ok { x_index := windowIndex df lookbackDays maxContext,
                    x_values := windowValues df lookbackDays maxContext,
                    y_timestamp := genFutureTs lastTs days.toNat,
                    pred_len := days.toNat }

/-- Full `predict_next_days`: validate, assemble the call, run the black-box
forecaster, return its predicted close column. -/
def predict_next_days (oracle : ModelCall → List Rat) (maxContext : Nat)
    (df : DataFrame) (days : Int) (granularity : String)
    (lookbackDays : Option Nat) : Except PredictError (List Rat) :=
  (predictCall maxContext df days granularity lookbackDays).map oracle

/-- C6: for every input series, `predict_next_days` with a requested horizon
`days ≤ 0` raises a `ValueError` before any prediction work is done (the
result is an error independent of the oracle, which is never consulted); on
any non-empty series the error is precisely the "days must be > 0" one. -/
theorem predict_rejects_nonpositive_days (oracle : ModelCall → List Rat)
    (maxContext : Nat) (df : DataFrame) (days : Int) (granularity : String)
    (lookbackDays : Option Nat) (hdays : days ≤ 0) :
    (∃ e, predict_next_days oracle maxContext df days granularity lookbackDays
        = Except.error e)
    ∧ (df.rowIndex ≠ [] →
        predict_next_days oracle maxContext df days granularity lookbackDays
          = Except.error PredictError.invalidDays) := by
  unfold predict_next_days predictCall
  by_cases hemp : df.rowIndex.isEmpty
  · rw [if_pos hemp]
    exact ⟨⟨PredictError.noData, rfl⟩,
      fun hne => absurd (List.isEmpty_iff.mp hemp) hne⟩
  · rw [if_neg hemp, if_pos hdays]
    exact ⟨⟨PredictError.invalidDays, rfl⟩, fun _ => rfl⟩

/-- Witness for C6: a one-row series with `days = 0`. -/
theorem predict_rejects_nonpositive_days_witness :
    predict_next_days (fun _ => []) 2048
      ⟨requiredCols, [0], [[1, 2, 3, 4, 5, 6]]⟩ 0 "day" none
      = Except.error PredictError.invalidDays :=
  (predict_rejects_nonpositive_days (fun _ => []) 2048
      ⟨requiredCols, [0], [[1, 2, 3, 4, 5, 6]]⟩ 0 "day" none
      (by decide)).2 (by decide)

/-- C7: `predict_next_days` rejects with a descriptive error every input
that is empty or lacks one of the canonical numeric columns, rather than
attempting a forecast: the result is an error independent of the oracle;
empty input yields the no-data error, and non-empty input missing a column
(with otherwise valid arguments) yields the missing-columns error. -/
theorem predict_rejects_empty_or_missing_columns (oracle : ModelCall → List Rat)
    (maxContext : Nat) (df : DataFrame) (days : Int) (granularity : String)
    (lookbackDays : Option Nat)
    (h : df.rowIndex = [] ∨ ∃ c ∈ requiredCols, ¬ df.cols.contains c) :
    (∃ e, predict_next_days oracle maxContext df days granularity lookbackDays
        = Except.error e)
    ∧ (df.rowIndex = [] →
        predict_next_days oracle maxContext df days granularity lookbackDays
          = Except.error PredictError.noData)
    ∧ (df.rowIndex ≠ [] → 0 < days → granularity = "day" →
        predict_next_days oracle maxContext df days granularity lookbackDays
          = Except.error PredictError.missingColumns) := by
  unfold predict_next_days predictCall
  by_cases hemp : df.rowIndex.isEmpty
  · rw [if_pos hemp]
    exact ⟨⟨PredictError.noData, rfl⟩, fun _ => rfl,
      fun hne => absurd (List.isEmpty_iff.mp hemp) hne⟩
  · have hne : ¬ df.rowIndex = [] := fun h0 => hemp (List.isEmpty_iff.mpr h0)
    have hmiss : ∃ c ∈ requiredCols, ¬ df.cols.contains c := by
      rcases h with h | h
      · exact absurd h hne
      · exact h
    have hall : ¬ ((requiredCols.all fun c => df.cols.contains c) = true) := by
      rcases hmiss with ⟨c, hc, hnc⟩
      rw [List.all_eq_true]
      exact fun hforall => hnc (hforall c hc)
    rw [if_neg hemp]
    by_cases hdays : days ≤ 0
    · rw [if_pos hdays]
      exact ⟨⟨PredictError.invalidDays, rfl⟩, fun h0 => absurd h0 hne,
        fun _ hpos _ => absurd hpos (by omega)⟩
    · rw [if_neg hdays]
      by_cases hgran : granularity ≠ "day"
      · rw [if_pos hgran]
        exact ⟨⟨PredictError.invalidGranularity, rfl⟩, fun h0 => absurd h0 hne,
          fun _ _ hg => absurd hg hgran⟩
      · rw [if_neg hgran, if_pos hall]
        exact ⟨⟨PredictError.missingColumns, rfl⟩, fun h0 => absurd h0 hne,
          fun _ _ _ => rfl⟩

/-- Witness for C7: an empty frame, and a one-row frame missing `amount`. -/
theorem predict_rejects_empty_or_missing_columns_witness :
    predict_next_days (fun _ => []) 2048 ⟨requiredCols, [], []⟩ 5 "day" none
      = Except.error PredictError.noData
    ∧ predict_next_days (fun _ => []) 2048
        ⟨["open", "high", "low", "close", "volume"], [0], [[1, 2, 3, 4, 5]]⟩
        5 "day" none
      = Except.error PredictError.missingColumns :=
  ⟨(predict_rejects_empty_or_missing_columns (fun _ => []) 2048
      ⟨requiredCols, [], []⟩ 5 "day" none (Or.inl rfl)).2.1 rfl,
   (predict_rejects_empty_or_missing_columns (fun _ => []) 2048
      ⟨["open", "high", "low", "close", "volume"], [0], [[1, 2, 3, 4, 5]]⟩
      5 "day" none (Or.inr ⟨"amount", by decide, by decide⟩)).2.2
      (by decide) (by decide) rfl⟩

lemma genFutureTs_eq (c : Int) (n : Nat) :
    genFutureTs c n = (List.range n).map fun i : Nat => c + (i : Int) + 1 := by
  induction n generalizing c with
  | zero => rfl
  | succ n ih =>
      rw [List.range_succ_eq_map, List.map_cons]
      show (c + 1) :: genFutureTs (c + 1) n = _
      rw [ih, List.map_map]
      refine List.cons_eq_cons.mpr ⟨by push_cast; ring, ?_⟩
      refine List.map_congr_left ?_
      intro a _
      simp only [Function.comp_apply]
      push_cast
      ring

lemma lookbackLen_le_maxContext (n : Nat) (lookbackDays : Option Nat)
    (maxContext : Nat) : lookbackLen n lookbackDays maxContext ≤ maxContext := by
  unfold lookbackLen
  cases lookbackDays <;> simp

lemma lookbackLen_le_len (n : Nat) (lookbackDays : Option Nat)
    (maxContext : Nat) : lookbackLen n lookbackDays maxContext ≤ n := by
  unfold lookbackLen
  cases lookbackDays <;> simp

lemma windowIndex_length (df : DataFrame) (lookbackDays : Option Nat)
    (maxContext : Nat) :
    (windowIndex df lookbackDays maxContext).length
      = lookbackLen df.rowIndex.length lookbackDays maxContext := by
  unfold windowIndex
  rw [List.length_drop]
  have := lookbackLen_le_len df.rowIndex.length lookbackDays maxContext
  omega

/-- C8: whenever the validation passes and the forecaster is invoked, the
historical window handed to it holds at most `max_context` rows and is a
suffix of the input (its most recent rows), and the future timestamps are
exactly `days` consecutive calendar days immediately following the last
historical timestamp. -/
theorem predict_window_and_future_timestamps (maxContext : Nat)
    (df : DataFrame) (days : Int) (granularity : String)
    (lookbackDays : Option Nat) (c : ModelCall)
    (h : predictCall maxContext df days granularity lookbackDays = Except.ok c) :
    c.x_index.length ≤ maxContext
    ∧ List.IsSuffix c.x_index df.rowIndex
    ∧ c.pred_len = days.toNat
    ∧ c.y_timestamp.length = days.toNat
    ∧ ∃ lastTs, c.x_index.getLast? = some lastTs
        ∧ c.y_timestamp = (List.range days.toNat).map
            fun i : Nat => lastTs + (i : Int) + 1 := by
  unfold predictCall at h
  by_cases h1 : df.rowIndex.isEmpty
  · rw [if_pos h1] at h; exact absurd h (by simp)
  rw [if_neg h1] at h
  by_cases h2 : days ≤ 0
  · rw [if_pos h2] at h; exact absurd h (by simp)
  rw [if_neg h2] at h
  by_cases h3 : granularity ≠ "day"
  · rw [if_pos h3] at h; exact absurd h (by simp)
  rw [if_neg h3] at h
  by_cases h4 : ¬ (requiredCols.all fun c => df.cols.contains c) = true
  · rw [if_pos h4] at h; exact absurd h (by simp)
  rw [if_neg h4] at h
  cases hL : (windowIndex df lookbackDays maxContext).getLast? with
  | none => rw [hL] at h; exact absurd h (by simp)
  | some lastTs =>
      rw [hL] at h
      have hc : c = { x_index := windowIndex df lookbackDays maxContext,
                      x_values := windowValues df lookbackDays maxContext,
                      y_timestamp := genFutureTs lastTs days.toNat,
                      pred_len := days.toNat } := (Except.ok.inj h).symm
      subst hc
      refine ⟨?_, ?_, rfl, ?_, ⟨lastTs, hL, genFutureTs_eq lastTs days.toNat⟩⟩
      · rw [windowIndex_length]
        exact lookbackLen_le_maxContext _ _ _
      · exact List.drop_suffix _ _
      · rw [genFutureTs_eq, List.length_map, List.length_range]

/-- Witness for C8: three rows, `max_context = 2`, two-day horizon; the
window is the two newest rows and the future days follow timestamp 12. -/
theorem predict_window_and_future_timestamps_witness :
    (ModelCall.mk [11, 12] [[2, 2, 2, 2, 2, 2], [3, 3, 3, 3, 3, 3]]
        [13, 14] 2).x_index.length ≤ 2
    ∧ (ModelCall.mk [11, 12] [[2, 2, 2, 2, 2, 2], [3, 3, 3, 3, 3, 3]]
        [13, 14] 2).pred_len = (2 : Int).toNat
    ∧ (ModelCall.mk [11, 12] [[2, 2, 2, 2, 2, 2], [3, 3, 3, 3, 3, 3]]
        [13, 14] 2).y_timestamp.length = (2 : Int).toNat := by
  have h := predict_window_and_future_timestamps 2
    ⟨requiredCols, [10, 11, 12],
      [[1, 1, 1, 1, 1, 1], [2, 2, 2, 2, 2, 2], [3, 3, 3, 3, 3, 3]]⟩
    2 "day" none
    (ModelCall.mk [11, 12] [[2, 2, 2, 2, 2, 2], [3, 3, 3, 3, 3, 3]] [13, 14] 2)
    (by rfl)
  exact ⟨h.1, h.2.2.1, h.2.2.2.1⟩

/-- Counterexample for C1: a series of length 3 — shorter than `w + 1 = 6`
for the spec's default lag window `w = 5` — is not rejected with an
insufficient-data error: the call passes validation and succeeds, handing
the 3-row window to the forecaster. -/
theorem predict_length3_no_insufficient_data :
    predictCall 2048
      ⟨requiredCols, [0, 1, 2],
        [[1, 1, 1, 1, 1, 1], [2, 2, 2, 2, 2, 2], [3, 3, 3, 3, 3, 3]]⟩
      5 "day" none
      = Except.ok (ModelCall.mk [0, 1, 2]
          [[1, 1, 1, 1, 1, 1], [2, 2, 2, 2, 2, 2], [3, 3, 3, 3, 3, 3]]
          [3, 4, 5, 6, 7] 5) := by
  rfl

/-- C1 amended: `predict_next_days` enforces no minimum series length.  With
positive context, any non-empty series that has the canonical columns, a
positive horizon and granularity "day" passes validation and is forwarded to
the forecaster with a window of `min(len, max_context)` rows; in particular
a series of length 3 is forecast, not rejected. -/
theorem predict_accepts_any_nonempty_series (maxContext : Nat)
    (df : DataFrame) (days : Int) (hctx : 1 ≤ maxContext)
    (hne : df.rowIndex ≠ [])
    (hcols : (requiredCols.all fun c => df.cols.contains c) = true)
    (hdays : 0 < days) :
    (predictCall maxContext df days "day" none).isOk = true
    ∧ ∀ c, predictCall maxContext df days "day" none = Except.ok c →
        c.x_index.length = min df.rowIndex.length maxContext := by
  have hlen : (windowIndex df none maxContext).length
      = min df.rowIndex.length maxContext := by
    rw [windowIndex_length]; rfl
  have hpos : 0 < df.rowIndex.length := List.length_pos.mpr hne
  have hwne : windowIndex df none maxContext ≠ [] := by
    intro h0
    rw [h0] at hlen
    simp at hlen
    omega
  obtain ⟨lastTs, hL⟩ : ∃ l, (windowIndex df none maxContext).getLast? = some l := by
    cases hg : (windowIndex df none maxContext).getLast? with
    | none => exact absurd (List.getLast?_eq_none_iff.mp hg) hwne
    | some l => exact ⟨l, rfl⟩
  unfold predictCall
  rw [if_neg (fun hc => hne (List.isEmpty_iff.mp hc)),
    if_neg (by omega : ¬ days ≤ 0),
    if_neg (by simp : ¬ ("day" : String) ≠ "day"),
    if_neg (not_not_intro hcols), hL]
  exact ⟨rfl, fun c hc => by rw [← Except.ok.inj hc]; exact hlen⟩

/-- Witness for C1 amended: the length-3 series is accepted and its whole
3-row window (within a 2048 context) goes to the model. -/
theorem predict_accepts_any_nonempty_series_witness :
    (predictCall 2048
      ⟨requiredCols, [0, 1, 2],
        [[1, 1, 1, 1, 1, 1], [2, 2, 2, 2, 2, 2], [3, 3, 3, 3, 3, 3]]⟩
      5 "day" none).isOk = true
    ∧ (ModelCall.mk [0, 1, 2]
        [[1, 1, 1, 1, 1, 1], [2, 2, 2, 2, 2, 2], [3, 3, 3, 3, 3, 3]]
        [3, 4, 5, 6, 7] 5).x_index.length = min 3 2048 := by
  have h := predict_accepts_any_nonempty_series 2048
    ⟨requiredCols, [0, 1, 2],
      [[1, 1, 1, 1, 1, 1], [2, 2, 2, 2, 2, 2], [3, 3, 3, 3, 3, 3]]⟩
    5 (by decide) (by decide) (by decide) (by decide)
  exact ⟨h.1, h.2 _ (by rfl)⟩

/-! ### predictor.py `__init__` max-context resolution (lines 114-137) -/

/-- Preset `VARIANT_PRESETS[variant]["max_context"]`.  Unknown variants raise a
`ValueError` earlier in `__init__`, so the final branch is unreachable. -/
def presetMaxContext (variant : String) : Int :=
  if variant = "mini" then 2048
  else if variant = "small" then 512
  else if variant = "base" then 512
  else 0

/-- Python `a or b` on an optional integer left operand: `None` and `0` are
falsy. -/
def pyIntOr (a b : Option Int) : Option Int :=
  match a with
  | some v => if v = 0 then b else some v
  | none => b

/-- Lines 123-127: `max_context or (int(env) if env else None) or
preset["max_context"]`, with the environment variable modelled in parsed
form (`int(...)` of a set, numeric `KRONOS_MAX_CONTEXT`). -/
def resolveMaxContext (argMaxContext envMaxContext : Option Int)
    (variant : String) : Int :=
  match pyIntOr argMaxContext envMaxContext with
  | some v => if v = 0 then presetMaxContext variant else v
  | none => presetMaxContext variant

/-- Lines 130 and 135-137: `self.max_context` after the small/base clamp. -/
def initMaxContext (variant : String)
    (argMaxContext envMaxContext : Option Int) : Int :=
  let resolved := resolveMaxContext argMaxContext envMaxContext variant
  if (variant = "small" ∨ variant = "base") ∧ resolved > 512 then 512
  else resolved

/-- C10: for variants "small" and "base" the effective `max_context` never
exceeds 512, whatever the constructor argument and environment variable
supply, and any resolved value above 512 is clamped to exactly 512. -/
theorem small_base_max_context_clamped (variant : String)
    (argMaxContext envMaxContext : Option Int)
    (h : variant = "small" ∨ variant = "base") :
    initMaxContext variant argMaxContext envMaxContext ≤ 512
    ∧ (resolveMaxContext argMaxContext envMaxContext variant > 512 →
        initMaxContext variant argMaxContext envMaxContext = 512) := by
  simp only [initMaxContext]
  constructor
  · split_ifs with hc
    · exact le_refl _
    · have hres : ¬ resolveMaxContext argMaxContext envMaxContext variant > 512 :=
        fun hr => hc ⟨h, hr⟩
      omega
  · intro hr
    rw [if_pos ⟨h, hr⟩]

/-- Witness for C10: variant "small" with a constructor argument of 4096 is
clamped to 512. -/
theorem small_base_max_context_clamped_witness :
    initMaxContext "small" (some 4096) none ≤ 512
    ∧ initMaxContext "small" (some 4096) none = 512 := by
  have h := small_base_max_context_clamped "small" (some 4096) none (Or.inl rfl)
  exact ⟨h.1, h.2 (by decide)⟩

end KLine
